import Mathlib

/-!
Verification of the arxiv-paper-collector classification-and-rendering core.

The Python modules under `src/modules/` are shallowly embedded below:
strings are modelled as `List Char`, Python dicts (which preserve insertion
order and have unique keys) as association lists, the external compiler
process as an oracle value per attempt, and filesystem effects as boolean
flags in an environment record.  Each definition mirrors one Python
function and keeps its name where Lean allows.
-/

namespace ArxivCollector

/-! ### String primitives (Python `str` operations) -/

/-- Python `str.lower()` applied characterwise (ASCII case mapping;
the inputs we evaluate on are ASCII, where both agree). -/
def lowerL (t : List Char) : List Char := t.map Char.toLower

/-- Python `k in t` for strings: `k` occurs as a contiguous substring of `t`. -/
def subMatch (k t : List Char) : Bool :=
  (List.range (t.length + 1)).any fun i => k.isPrefixOf (t.drop i)

/-- Regex word character `\w` (ASCII fragment: letters, digits, underscore). -/
def isWordChar (c : Char) : Bool := c.isAlphanum || c == '_'

/-- Word-ness of the character at index `j`; out of range counts as non-word. -/
def wordAt (t : List Char) (j : Nat) : Bool := isWordChar (t.getD j ' ')

/-- Word-ness of the character just before position `i` (non-word before index 0). -/
def beforeWord (t : List Char) : Nat → Bool
  | 0 => false
  | j + 1 => wordAt t j

/-- Regex `\b`: a word boundary at position `i` of `t`. -/
def boundaryAt (t : List Char) (i : Nat) : Bool := beforeWord t i != wordAt t i

/-- `re.search(r'\b' + re.escape(k) + r'\b', t)` succeeds: `k` occurs at some
position of `t` delimited by word boundaries on both sides. -/
def wbMatch (k t : List Char) : Bool :=
  (List.range (t.length + 1)).any fun i =>
    k.isPrefixOf (t.drop i) && boundaryAt t i && boundaryAt t (i + k.length)

/-! ### Paper records -/

/-- The paper dictionary fields the classification core reads
(`arxiv_fetcher._parse_paper` supplies them; `relevance_score` is absent
until `filter_by_relevance` attaches it). -/
structure Paper where
  title : List Char
  summary : List Char
  arxiv_id : List Char
  relevance_score : Option ℚ
deriving DecidableEq

/-! ### `paper_filter.PaperFilter` -/

/-- `PaperFilter._keyword_matches`: exact (lowercased) substring match, else
word-boundary regex match.  `text` is already lowercased by the caller. -/
def keywordMatches (keyword : List Char) (text : List Char) : Bool :=
  if subMatch (lowerL keyword) text then true
  else if wbMatch (lowerL keyword) text then true
  else false

/-- The search text of `PaperFilter._matches_keywords`:
`paper["title"].lower() + " " + paper["summary"].lower()`. -/
def textToSearch (p : Paper) : List Char := lowerL p.title ++ ' ' :: lowerL p.summary

/-- `PaperFilter._matches_keywords`: the paper matches at least one keyword. -/
def matchesKeywords (p : Paper) (keywords : List (List Char)) : Bool :=
  keywords.any fun k => keywordMatches k (textToSearch p)

/-- The key of the synthetic catch-all group. -/
def uncategorizedKey : List Char := "uncategorized".data

/-- Python dict assignment `d[key] = v`: overwrite in place when the key is
present, else append at the end (insertion order preserved). -/
def dictSet {α : Type} (d : List (List Char × α)) (key : List Char) (v : α) :
    List (List Char × α) :=
  if d.any (fun kv => kv.1 == key) then
    d.map fun kv => if kv.1 == key then (key, v) else kv
  else d ++ [(key, v)]

/-- The per-rule-group loop of `filter_papers`: one entry per rule group,
holding the papers matching that group's keywords, in input order. -/
def namedGroups (rules : List (List Char × List (List Char))) (papers : List Paper) :
    List (List Char × List Paper) :=
  rules.map fun gk => (gk.1, papers.filter fun p => matchesKeywords p gk.2)

/-- The `unmatched_papers` list of `filter_papers`: papers matched by no rule
group.  (The Python original tracks matched papers via `id(paper)`; since
`_matches_keywords` is a pure function of the paper's contents, a paper is
unmatched iff its contents match no group, which is what this computes.) -/
def unmatchedPapers (rules : List (List Char × List (List Char))) (papers : List Paper) :
    List Paper :=
  papers.filter fun p => !(rules.any fun gk => matchesKeywords p gk.2)

/-- `PaperFilter.filter_papers`: the named-group entries, then the
`"uncategorized"` entry holding the unmatched papers, assigned (dict-style,
overwriting a rule group of that name) only when non-empty. -/
def filterPapers (rules : List (List Char × List (List Char))) (papers : List Paper) :
    List (List Char × List Paper) :=
  if (unmatchedPapers rules papers).isEmpty then namedGroups rules papers
  else dictSet (namedGroups rules papers) uncategorizedKey (unmatchedPapers rules papers)

/-- Python `min(a, b)` on two numbers (returns the first when equal). -/
def ratMin (a b : ℚ) : ℚ := if a ≤ b then a else b

/-- `PaperFilter._calculate_relevance`: ratio of matched entries of the
flattened keyword list to the number of distinct keywords, capped at 1; the
match test is plain lowercased substring containment.  `len(set(all_keywords))`
is modelled by `List.dedup.length` (the number of distinct entries), and the
division `matches / unique_keywords` by the exact rational `mkRat`. -/
def calculateRelevance (rules : List (List Char × List (List Char))) (p : Paper) : ℚ :=
  let allKeywords := (rules.map Prod.snd).flatten
  let text := lowerL (p.title ++ ' ' :: p.summary)
  let matchCount := (allKeywords.filter fun k => subMatch (lowerL k) text).length
  let uniqueKeywords := allKeywords.dedup.length
  if uniqueKeywords = 0 then 0
  else ratMin (mkRat matchCount uniqueKeywords) 1

/-- The sort key used by `filter_by_relevance`: `p["relevance_score"]`
(every sorted paper has it attached; `0` is an arbitrary default). -/
def scoreKey (p : Paper) : ℚ := p.relevance_score.getD 0

/-- Insert `p` into a descending-sorted list, before the first element of
strictly smaller score (so earlier elements win ties). -/
def insertScoreDesc (p : Paper) : List Paper → List Paper
  | [] => [p]
  | q :: rest =>
    if scoreKey q ≤ scoreKey p then p :: q :: rest else q :: insertScoreDesc p rest

/-- Stable sort by `relevance_score`, descending (`list.sort(key=..., reverse=True)`).
A stable sort's output is uniquely determined by the key order and the input
order, so this insertion sort computes exactly what Python's stable sort does. -/
def sortByScoreDesc : List Paper → List Paper
  | [] => []
  | p :: rest => insertScoreDesc p (sortByScoreDesc rest)

/-- `PaperFilter.filter_by_relevance`: keep the papers whose score reaches the
threshold, attach the score to each survivor, and sort the survivors by score
descending. -/
def filterByRelevance (rules : List (List Char × List (List Char)))
    (papers : List Paper) (minRelevance : ℚ) : List Paper :=
  let scored := papers.filterMap fun p =>
    let s := calculateRelevance rules p
    if minRelevance ≤ s then some { p with relevance_score := some s } else none
  sortByScoreDesc scored

/-- The final state of one input paper dictionary after `filter_by_relevance`
ran: mutated (score attached) iff its score reached the threshold. -/
def relevancePost (rules : List (List Char × List (List Char)))
    (minRelevance : ℚ) (p : Paper) : Paper :=
  if minRelevance ≤ calculateRelevance rules p then
    { p with relevance_score := some (calculateRelevance rules p) }
  else p

/-! ### `arxiv_fetcher.ArxivFetcher._remove_duplicates` -/

/-- The loop of `_remove_duplicates`; `seen` is the `seen_ids` set. -/
def removeDuplicatesGo (seen : List (List Char)) : List Paper → List Paper
  | [] => []
  | p :: rest =>
    if p.arxiv_id ∈ seen then removeDuplicatesGo seen rest
    else p :: removeDuplicatesGo (p.arxiv_id :: seen) rest

/-- `ArxivFetcher._remove_duplicates`: keep the first paper seen for each
`arxiv_id`, preserving order. -/
def removeDuplicates (papers : List Paper) : List Paper :=
  removeDuplicatesGo [] papers

/-! ### `latex_generator.LatexGenerator` -/

/-- Python `t.replace(c, rep)` for a single-character pattern: every
occurrence of `c` is replaced by `rep`; the replacement text is not rescanned
within the same call. -/
def pyReplaceChar (c : Char) (rep : List Char) (t : List Char) : List Char :=
  t.flatMap fun x => if x == c then rep else [x]

/-- The `replacements` dict of `_latex_escape`, in insertion order. -/
def latexReplacements : List (Char × List Char) :=
  [ ('&', "\\&".data), ('%', "\\%".data), ('$', "\\$".data), ('#', "\\#".data),
    ('_', "\\_".data), ('\x7b', "\\\x7b".data), ('\x7d', "\\\x7d".data),
    ('~', "\\textasciitilde\x7b\x7d".data), ('^', "\\^\x7b\x7d".data),
    ('\\', "\\textbackslash\x7b\x7d".data) ]

/-- `LatexGenerator._latex_escape`: sequential `str.replace` over the
replacement table, in its insertion order (the backslash rule runs last). -/
def latexEscape (t : List Char) : List Char :=
  latexReplacements.foldl (fun acc cr => pyReplaceChar cr.1 cr.2 acc) t

/-- Python `t[:k]` (initial slice), including the negative-index case,
which drops `-k` characters from the end. -/
def pySliceTo (t : List Char) (k : Int) : List Char :=
  if k < 0 then t.take ((t.length : Int) + k).toNat else t.take k.toNat

/-- `LatexGenerator._truncate_latex`: return short text unchanged, else slice
to `max_length - len(suffix)` and append the suffix. -/
def truncateLatex (t : List Char) (maxLength : Nat) (sfx : List Char) : List Char :=
  if t.length ≤ maxLength then t
  else pySliceTo t ((maxLength : Int) - (sfx.length : Int)) ++ sfx

/-! ### `pdf_compiler.PdfCompiler` -/

/-- Outcome of one `subprocess.run` of the engine: timeout, some other
exception, or completion with an exit code and captured stdout. -/
inductive ProcResult where
  | timeout : ProcResult
  | exn : ProcResult
  | done : Int → List Char → ProcResult
deriving DecidableEq

/-- The fatal-marker scan of `_run_compilation`:
`"Fatal error" in stdout or "! Emergency stop" in stdout`. -/
def fatalMarkerPresent (out : List Char) : Bool :=
  subMatch "Fatal error".data out || subMatch "! Emergency stop".data out

/-- `PdfCompiler._run_compilation`: an attempt succeeds iff the process
completed with exit code 0 and no fatal marker; timeouts and exceptions are
caught and reported as failure. -/
def runCompilation : ProcResult → Bool
  | ProcResult.timeout => false
  | ProcResult.exn => false
  | ProcResult.done rc out =>
    if rc ≠ 0 then false
    else if fatalMarkerPresent out then false
    else true

/-- Environment of one `compile` call: the abstract outcomes of the checks and
external processes it performs (filesystem and subprocess effects). -/
structure CompileEnv where
  fileExists : Bool
  engineOk : Bool
  attempts : Nat
  procResult : Nat → ProcResult
  pdfAppears : Bool
  pdfPath : List Char

/-- The `for attempt in range(self.attempts)` loop of `compile`, started at
attempt number `k`: returns the overall success flag and the 1-based numbers
of the attempts actually executed. -/
def compileLoop (proc : Nat → ProcResult) : Nat → Nat → Bool × List Nat
  | 0, _ => (true, [])
  | n + 1, k =>
    if runCompilation (proc k) then
      let r := compileLoop proc n (k + 1)
      (r.1, k :: r.2)
    else (false, [k])

/-- `PdfCompiler.compile`: missing file or missing engine fail, then the
attempt loop runs (any failed attempt returns `None` at once), then the
produced artifact path is returned if the file appeared.  The pair's second
component records which attempts were executed. -/
def compileModel (env : CompileEnv) : Option (List Char) × List Nat :=
  if !env.fileExists then (none, [])
  else if !env.engineOk then (none, [])
  else
    let r := compileLoop env.procResult env.attempts 1
    if r.1 then ((if env.pdfAppears then some env.pdfPath else none), r.2)
    else (none, r.2)

/-- `PdfCompiler.batch_compile`: run `compile` on each file, collecting the
successful artifact paths in order; `c` abstracts the per-file compile. -/
def batchCompile (c : List Char → Option (List Char)) : List (List Char) → List (List Char)
  | [] => []
  | f :: rest =>
    match c f with
    | some p => p :: batchCompile c rest
    | none => batchCompile c rest

/-! ### Spec-side relevance formulas, for comparison with the code -/

/-- The relevance formula exactly as the specification words it: the universe
is the flattened keyword list with duplicates removed, and each distinct
keyword is counted at most once in the numerator.  Written from the spec's
words for comparison with `calculateRelevance`, which is the code's formula. -/
def claimedRelevance (rules : List (List Char × List (List Char))) (p : Paper) : ℚ :=
  let allKeywords := (rules.map Prod.snd).flatten
  let text := lowerL (p.title ++ ' ' :: p.summary)
  let uniSet := allKeywords.toFinset
  if uniSet.card = 0 then 0
  else ratMin (mkRat (uniSet.filter fun k => subMatch (lowerL k) text = true).card uniSet.card) 1

/-- The relevance formula as amended to match the code: identical to
`claimedRelevance` except that the numerator counts every entry of the
flattened keyword list, duplicates included. -/
def amendedRelevance (rules : List (List Char × List (List Char))) (p : Paper) : ℚ :=
  let allKeywords := (rules.map Prod.snd).flatten
  let text := lowerL (p.title ++ ' ' :: p.summary)
  let uniSet := allKeywords.toFinset
  if uniSet.card = 0 then 0
  else ratMin (mkRat (allKeywords.countP fun k => subMatch (lowerL k) text) uniSet.card) 1

/-! ### Concrete instances used in counterexamples and witnesses -/

/-- A rule set whose single group repeats the keyword `"a"`. -/
def dupRules : List (List Char × List (List Char)) :=
  [("g".data, ["a".data, "a".data, "b".data, "c".data])]

/-- A paper whose text contains only the keyword `"a"`. -/
def paperA : Paper := ⟨"a".data, [], "1".data, none⟩

/-- A paper matching the keyword `"x"`. -/
def paperX : Paper := ⟨"x".data, [], "1".data, none⟩

/-- A paper matching no keyword used in the examples. -/
def paperY : Paper := ⟨"y".data, [], "2".data, none⟩

/-- Papers sharing an identifier with `paperX` but with different content. -/
def paperX2 : Paper := ⟨"x again".data, [], "1".data, none⟩

/-- An environment whose compiler times out on every attempt. -/
def timeoutEnv : CompileEnv :=
  ⟨true, true, 2, fun _ => ProcResult.timeout, true, "out.pdf".data⟩

/-- An environment whose compiler exits with code 1 on every attempt. -/
def exitEnv : CompileEnv :=
  ⟨true, true, 2, fun _ => ProcResult.done 1 [], true, "out.pdf".data⟩

/-- A per-file compile oracle that fails on `"d2"` and succeeds elsewhere. -/
def exCompile : List Char → Option (List Char) :=
  fun f => if f == "d2".data then none else some (f ++ ".pdf".data)

/-- The spec's classification example rule set. -/
def exRules : List (List Char × List (List Char)) :=
  [("ai".data, ["neural network".data]), ("physics".data, ["DFT".data])]

/-- The spec's classification example records. -/
def exPapers : List Paper :=
  [⟨"A Neural Network Approach".data, [], "1".data, none⟩,
   ⟨"DFT study".data, [], "2".data, none⟩,
   ⟨"Unrelated topic".data, [], "3".data, none⟩]

/-- A rule set whose group is literally named `"uncategorized"`. -/
def cxRules : List (List Char × List (List Char)) :=
  [("uncategorized".data, ["x".data])]

/-! ## Theorems -/

/-- Claim C1 (code bug): `_latex_escape` replaces the backslash last, so the
backslash introduced by the earlier `& ↦ \&` rule is itself rewritten to
`\textbackslash{}` and the ampersand is left bare.  On input `"&"` the output
is `"\textbackslash{}&"`: it still contains `'&'`, and the literal-safe escape
`"\&"` occurs nowhere in it, so the reserved character `&` is unescaped in the
output, contradicting the claim (and the function's own documentation). -/
theorem latexEscape_leaves_ampersand_unescaped :
    latexEscape "&".data = "\\textbackslash\x7b\x7d&".data
    ∧ '&' ∈ latexEscape "&".data
    ∧ subMatch "\\&".data (latexEscape "&".data) = false := by decide

/-- Claim C9 counterexample: with `max_length = 2` and suffix `"..."` (longer
than the maximum), truncating the 4-character string `"abcd"` yields
`"abc..."`, of length 6 — the result exceeds the configured maximum, so the
claim as stated (for every `m` and suffix) is false. -/
theorem truncateLatex_exceeds_max_for_long_suffix :
    truncateLatex "abcd".data 2 "...".data = "abc...".data
    ∧ (truncateLatex "abcd".data 2 "...".data).length = 6
    ∧ ¬((truncateLatex "abcd".data 2 "...".data).length ≤ 2) := by decide

/-- Claim C9 as amended (assuming `len(suffix) ≤ m`): a string of length at
most `m` is returned unchanged; a longer string is truncated to exactly `m`
characters ending in the suffix. -/
theorem truncateLatex_spec (t : List Char) (m : Nat) (sfx : List Char)
    (h : sfx.length ≤ m) :
    (t.length ≤ m → truncateLatex t m sfx = t)
    ∧ (m < t.length →
        (truncateLatex t m sfx).length = m ∧ sfx.IsSuffix (truncateLatex t m sfx)) := by
  constructor
  · intro hle
    simp [truncateLatex, hle]
  · intro hlt
    have hnot : ¬t.length ≤ m := by omega
    have hk : ¬((m : Int) - (sfx.length : Int) < 0) := by omega
    have htn : ((m : Int) - (sfx.length : Int)).toNat = m - sfx.length := by omega
    constructor
    · simp only [truncateLatex, hnot, if_false, pySliceTo, hk, htn,
        List.length_append, List.length_take]
      omega
    · simp only [truncateLatex, hnot, if_false]
      exact List.suffix_append _ _

/-- Witness for `truncateLatex_spec`: a 20-character string with `m = 10` and
suffix `"..."` yields exactly 10 characters ending in the suffix. -/
theorem truncateLatex_spec_witness :
    "...".data.length ≤ 10
    ∧ ((truncateLatex "abcdefghijklmnopqrst".data 10 "...".data).length = 10
        ∧ "...".data.IsSuffix (truncateLatex "abcdefghijklmnopqrst".data 10 "...".data)) :=
  ⟨by decide,
    (truncateLatex_spec "abcdefghijklmnopqrst".data 10 "...".data (by decide)).2 (by decide)⟩

/-- Claim C8: `batch_compile` applies the per-file compile independently to
each file and returns exactly the successful artifact paths in input order;
concretely, with three files whose second compile fails, the result is the
first and third artifacts, in order. -/
theorem batchCompile_collects_successes_in_order :
    (∀ (c : List Char → Option (List Char)) (files : List (List Char)),
        batchCompile c files = files.filterMap c)
    ∧ batchCompile exCompile ["d1".data, "d2".data, "d3".data]
        = ["d1.pdf".data, "d3.pdf".data] := by
  constructor
  · intro c files
    induction files with
    | nil => rfl
    | cons f rest ih =>
      cases hc : c f <;> simp [batchCompile, List.filterMap_cons, hc, ih]
  · decide

/-- Claim C2 counterexample: with the keyword list `["a", "a", "b", "c"]`
(the keyword `"a"` repeated) and a record whose text contains only `"a"`, the
code scores `2/3` (both duplicate entries count), while the claimed formula —
each distinct keyword counted at most once over the deduplicated universe —
gives `1/3`. -/
theorem calculateRelevance_differs_from_claimed :
    calculateRelevance dupRules paperA = mkRat 2 3
    ∧ claimedRelevance dupRules paperA = mkRat 1 3
    ∧ calculateRelevance dupRules paperA ≠ claimedRelevance dupRules paperA := by decide

/-- Claim C2 as amended: the score equals
`min(matched_entry_count / unique_keyword_count, 1)` where the numerator
counts every entry of the flattened keyword list (duplicates included, each
matched entry counted once per occurrence in the list), the denominator is
the number of distinct keywords, and the score is 0 when the universe is
empty. -/
theorem calculateRelevance_eq_amendedRelevance
    (rules : List (List Char × List (List Char))) (p : Paper) :
    calculateRelevance rules p = amendedRelevance rules p := by
  simp only [calculateRelevance, amendedRelevance, List.card_toFinset,
    List.countP_eq_length_filter]

/-- Every attempt number in the executed trace is at least the start index. -/
lemma compileLoop_start_le (proc : Nat → ProcResult) :
    ∀ n s j, j ∈ (compileLoop proc n s).2 → s ≤ j := by
  intro n
  induction n with
  | zero =>
    intro s j hj
    simp [compileLoop] at hj
  | succ n ih =>
    intro s j hj
    cases hrc : runCompilation (proc s) with
    | true =>
      simp only [compileLoop, hrc, if_true, List.mem_cons] at hj
      rcases hj with rfl | hj'
      · exact Nat.le_refl _
      · exact Nat.le_of_succ_le (ih (s + 1) j hj')
    | false =>
      simp only [compileLoop, hrc, Bool.false_eq_true, if_false, List.mem_singleton] at hj
      exact hj ▸ Nat.le_refl _

/-- If an executed attempt failed, the loop reports failure and no later
attempt was executed. -/
lemma compileLoop_fail_is_last (proc : Nat → ProcResult) :
    ∀ n s k, k ∈ (compileLoop proc n s).2 → runCompilation (proc k) = false →
      (compileLoop proc n s).1 = false ∧ ∀ j ∈ (compileLoop proc n s).2, j ≤ k := by
  intro n
  induction n with
  | zero =>
    intro s k hk _
    simp [compileLoop] at hk
  | succ n ih =>
    intro s k hk hf
    cases hrc : runCompilation (proc s) with
    | true =>
      simp only [compileLoop, hrc, if_true, List.mem_cons] at hk ⊢
      rcases hk with rfl | hk'
      · exact absurd hrc (by simp [hf])
      · obtain ⟨h1, h2⟩ := ih (s + 1) k hk' hf
        refine ⟨h1, ?_⟩
        intro j hj
        rcases hj with rfl | hj'
        · exact Nat.le_of_succ_le (compileLoop_start_le proc n (j + 1) k hk')
        · exact h2 j hj'
    | false =>
      simp only [compileLoop, hrc, Bool.false_eq_true, if_false, List.mem_singleton] at hk ⊢
      subst hk
      constructor <;> simp

/-- If an executed attempt of `compile` failed, the whole compile returns
`None` and no later attempt was executed. -/
lemma compileModel_fail (env : CompileEnv) (k : Nat)
    (hk : k ∈ (compileModel env).2)
    (hf : runCompilation (env.procResult k) = false) :
    (compileModel env).1 = none ∧ ∀ j ∈ (compileModel env).2, j ≤ k := by
  cases hfe : env.fileExists with
  | false =>
    simp [compileModel, hfe] at hk
  | true =>
    cases heo : env.engineOk with
    | false =>
      simp [compileModel, hfe, heo] at hk
    | true =>
      have htr : (compileModel env).2 = (compileLoop env.procResult env.attempts 1).2 := by
        simp only [compileModel, hfe, heo, Bool.not_true, Bool.false_eq_true, if_false]
        split <;> rfl
      rw [htr] at hk
      obtain ⟨h1, h2⟩ := compileLoop_fail_is_last env.procResult env.attempts 1 k hk hf
      constructor
      · simp only [compileModel, hfe, heo, Bool.not_true, Bool.false_eq_true, if_false]
        split
        · next hcond => exact absurd h1 (by simp [hcond])
        · rfl
      · rw [htr]
        exact h2

/-- Claim C3: when compilation attempt `k` fails (non-zero exit, fatal-error
marker, or timeout — the cases where `_run_compilation` returns false), the
compile executes no attempt after `k` (every executed attempt number is
`≤ k`) and the whole compile reports failure (`None`). -/
theorem compile_attempt_failure_aborts (env : CompileEnv) (k : Nat)
    (hk : k ∈ (compileModel env).2)
    (hf : runCompilation (env.procResult k) = false) :
    (compileModel env).1 = none ∧ ∀ j ∈ (compileModel env).2, j ≤ k :=
  compileModel_fail env k hk hf

/-- Witness for `compile_attempt_failure_aborts`: a compiler that exits
non-zero on attempt 1 of 2 yields an immediate overall failure with only
attempt 1 executed. -/
theorem compile_attempt_failure_aborts_witness :
    (1 ∈ (compileModel exitEnv).2 ∧ runCompilation (exitEnv.procResult 1) = false)
    ∧ ((compileModel exitEnv).1 = none ∧ ∀ j ∈ (compileModel exitEnv).2, j ≤ 1) :=
  ⟨⟨by decide, by decide⟩, compile_attempt_failure_aborts exitEnv 1 (by decide) (by decide)⟩

/-- Claim C7 counterexample: a compiler that times out on attempt 1 and one
that exits non-zero on attempt 1 produce identical compile results — the bare
unclassified `none` — so the returned failure value distinguishes nothing and
carries no attempt number or diagnostic excerpt; only the logs differ. -/
theorem compile_timeout_vs_exit_indistinguishable :
    compileModel timeoutEnv = (none, [1])
    ∧ compileModel exitEnv = (none, [1])
    ∧ (compileModel timeoutEnv).1 = (compileModel exitEnv).1 := by decide

/-- Claim C7 as amended: `compile` returns either an artifact path or the
single unclassified failure value `None`; a process failure of either class —
timeout or non-zero exit — makes it return that same `None` (the distinction,
attempt number and diagnostics appear only in logging). -/
theorem compile_process_failures_return_none (env : CompileEnv) (k : Nat)
    (hk : k ∈ (compileModel env).2)
    (hf : env.procResult k = ProcResult.timeout
        ∨ ∃ rc out, rc ≠ 0 ∧ env.procResult k = ProcResult.done rc out) :
    (compileModel env).1 = none := by
  have hrun : runCompilation (env.procResult k) = false := by
    rcases hf with h | ⟨rc, out, hrc, h⟩
    · rw [h]
      rfl
    · rw [h]
      simp [runCompilation, hrc]
  exact (compileModel_fail env k hk hrun).1

/-- Witness for `compile_process_failures_return_none`: the timeout
environment at attempt 1. -/
theorem compile_process_failures_return_none_witness :
    (1 ∈ (compileModel timeoutEnv).2 ∧ timeoutEnv.procResult 1 = ProcResult.timeout)
    ∧ (compileModel timeoutEnv).1 = none :=
  ⟨⟨by decide, rfl⟩,
    compile_process_failures_return_none timeoutEnv 1 (by decide) (Or.inl rfl)⟩

/-- The dedup loop output is a sublist of its input (relative order kept). -/
lemma removeDuplicatesGo_sublist (l : List Paper) :
    ∀ seen, (removeDuplicatesGo seen l).Sublist l := by
  induction l with
  | nil =>
    intro seen
    simp [removeDuplicatesGo]
  | cons p rest ih =>
    intro seen
    by_cases h : p.arxiv_id ∈ seen
    · simp only [removeDuplicatesGo, if_pos h]
      exact (ih seen).cons p
    · simp only [removeDuplicatesGo, if_neg h]
      exact (ih _).cons₂ p

/-- An identifier occurs in the dedup loop output iff it is not among the
already-seen identifiers and occurs in the input. -/
lemma mem_ids_removeDuplicatesGo (l : List Paper) :
    ∀ seen x, x ∈ (removeDuplicatesGo seen l).map Paper.arxiv_id
      ↔ x ∉ seen ∧ x ∈ l.map Paper.arxiv_id := by
  induction l with
  | nil =>
    intro seen x
    simp [removeDuplicatesGo]
  | cons p rest ih =>
    intro seen x
    by_cases h : p.arxiv_id ∈ seen
    · simp only [removeDuplicatesGo, if_pos h, List.map_cons, List.mem_cons]
      rw [ih]
      constructor
      · rintro ⟨hx, hr⟩
        exact ⟨hx, Or.inr hr⟩
      · rintro ⟨hx, hpx | hr⟩
        · exact absurd (hpx ▸ h) hx
        · exact ⟨hx, hr⟩
    · simp only [removeDuplicatesGo, if_neg h, List.map_cons, List.mem_cons]
      rw [ih]
      constructor
      · rintro (rfl | ⟨hx, hr⟩)
        · exact ⟨h, Or.inl rfl⟩
        · exact ⟨fun hs => hx (List.mem_cons_of_mem _ hs), Or.inr hr⟩
      · rintro ⟨hx, rfl | hr⟩
        · exact Or.inl rfl
        · by_cases hxp : x = p.arxiv_id
          · exact Or.inl hxp
          · exact Or.inr ⟨by simp [List.mem_cons, hxp, hx], hr⟩

/-- The dedup loop emits each identifier at most once. -/
lemma nodup_ids_removeDuplicatesGo (l : List Paper) :
    ∀ seen, ((removeDuplicatesGo seen l).map Paper.arxiv_id).Nodup := by
  induction l with
  | nil =>
    intro seen
    simp [removeDuplicatesGo]
  | cons p rest ih =>
    intro seen
    by_cases h : p.arxiv_id ∈ seen
    · simpa [removeDuplicatesGo, if_pos h] using ih seen
    · simp only [removeDuplicatesGo, if_neg h, List.map_cons, List.nodup_cons]
      refine ⟨fun hm => ?_, ih _⟩
      exact ((mem_ids_removeDuplicatesGo rest _ _).mp hm).1 (List.mem_cons_self _ _)

/-- Every paper kept by the dedup loop is its input's first occurrence of its
identifier. -/
lemma find_first_removeDuplicatesGo (l : List Paper) :
    ∀ seen p, p ∈ removeDuplicatesGo seen l →
      p.arxiv_id ∉ seen ∧ l.find? (fun q => q.arxiv_id == p.arxiv_id) = some p := by
  induction l with
  | nil =>
    intro seen p hp
    simp [removeDuplicatesGo] at hp
  | cons q rest ih =>
    intro seen p hp
    by_cases h : q.arxiv_id ∈ seen
    · simp only [removeDuplicatesGo, if_pos h] at hp
      obtain ⟨hns, hfind⟩ := ih seen p hp
      have hne : q.arxiv_id ≠ p.arxiv_id := fun he => hns (he ▸ h)
      refine ⟨hns, ?_⟩
      rw [List.find?_cons_of_neg _ (by simp [hne])]
      exact hfind
    · simp only [removeDuplicatesGo, if_neg h, List.mem_cons] at hp
      rcases hp with rfl | hp'
      · refine ⟨h, ?_⟩
        rw [List.find?_cons_of_pos _ (by simp)]
      · obtain ⟨hns, hfind⟩ := ih _ p hp'
        have hnq : q.arxiv_id ≠ p.arxiv_id := by
          intro he
          exact hns (by simp [he.symm])
        refine ⟨fun hs => hns (List.mem_cons_of_mem _ hs), ?_⟩
        rw [List.find?_cons_of_neg _ (by simp [hnq])]
        exact hfind

/-- On an input with pairwise-distinct identifiers, none already seen, the
dedup loop is the identity. -/
lemma removeDuplicatesGo_id_of_nodup (l : List Paper) :
    ∀ seen, (∀ p ∈ l, p.arxiv_id ∉ seen) → (l.map Paper.arxiv_id).Nodup →
      removeDuplicatesGo seen l = l := by
  induction l with
  | nil =>
    intro seen _ _
    rfl
  | cons p rest ih =>
    intro seen hdisj hnd
    have hnd' : (∀ x ∈ rest, ¬x.arxiv_id = p.arxiv_id)
        ∧ (rest.map Paper.arxiv_id).Nodup := by simpa using hnd
    have hp : p.arxiv_id ∉ seen := hdisj p (List.mem_cons_self _ _)
    simp only [removeDuplicatesGo, if_neg hp]
    congr 1
    apply ih
    · intro q hq
      simp only [List.mem_cons]
      rintro (he | hs)
      · exact hnd'.1 q hq he
      · exact hdisj q (List.mem_cons_of_mem _ hq) hs
    · exact hnd'.2

/-- Claim C6: deduplication outputs each distinct identifier exactly once
(identifier list without duplicates, same identifier set as the input), keeps
each survivor at its identifier's first occurrence and in its relative input
position (the output is a sublist of the input whose members are the `find?`
winners), maps the empty input to the empty output, and is idempotent. -/
theorem removeDuplicates_spec (l : List Paper) :
    ((removeDuplicates l).map Paper.arxiv_id).Nodup
    ∧ (∀ x, x ∈ (removeDuplicates l).map Paper.arxiv_id ↔ x ∈ l.map Paper.arxiv_id)
    ∧ (removeDuplicates l).Sublist l
    ∧ (∀ p, p ∈ removeDuplicates l → l.find? (fun q => q.arxiv_id == p.arxiv_id) = some p)
    ∧ removeDuplicates ([] : List Paper) = []
    ∧ removeDuplicates (removeDuplicates l) = removeDuplicates l := by
  refine ⟨nodup_ids_removeDuplicatesGo l [], ?_, removeDuplicatesGo_sublist l [], ?_, rfl, ?_⟩
  · intro x
    rw [removeDuplicates, mem_ids_removeDuplicatesGo]
    simp
  · intro p hp
    exact (find_first_removeDuplicatesGo l [] p hp).2
  · apply removeDuplicatesGo_id_of_nodup
    · intro p _
      simp
    · exact nodup_ids_removeDuplicatesGo l []

/-- Witness for `removeDuplicates_spec`: two papers share the identifier
`"1"`; the first is kept at its position, and deduplication is idempotent. -/
theorem removeDuplicates_spec_witness :
    removeDuplicates [paperX, paperY, paperX2] = [paperX, paperY]
    ∧ (paperX ∈ removeDuplicates [paperX, paperY, paperX2]
        ∧ [paperX, paperY, paperX2].find? (fun q => q.arxiv_id == paperX.arxiv_id)
            = some paperX)
    ∧ removeDuplicates (removeDuplicates [paperX, paperY, paperX2])
        = removeDuplicates [paperX, paperY, paperX2] :=
  ⟨by decide,
    ⟨by decide, (removeDuplicates_spec [paperX, paperY, paperX2]).2.2.2.1 paperX (by decide)⟩,
    (removeDuplicates_spec [paperX, paperY, paperX2]).2.2.2.2.2⟩

/-- `_keyword_matches` is the disjunction of its two checks. -/
lemma keywordMatches_eq_or (k t : List Char) :
    keywordMatches k t = (subMatch (lowerL k) t || wbMatch (lowerL k) t) := by
  cases h1 : subMatch (lowerL k) t <;> cases h2 : wbMatch (lowerL k) t <;>
    simp [keywordMatches, h1, h2]

/-- Claim C5: a record is a member of a rule group iff at least one keyword of
the group's list matches it, where a keyword matches iff it occurs as a
lowercased substring of `title + " " + abstract` or as a lowercased
word-boundary-delimited occurrence in that text — either condition alone
suffices.  Membership is computed by `matchesKeywords` from the group's own
keyword list alone, so groups are evaluated independently and a record may
belong to several groups. -/
theorem matchesKeywords_iff_substring_or_word_boundary
    (p : Paper) (keywords : List (List Char)) :
    matchesKeywords p keywords = true
      ↔ ∃ k ∈ keywords,
          (subMatch (lowerL k) (textToSearch p) = true
            ∨ wbMatch (lowerL k) (textToSearch p) = true) := by
  unfold matchesKeywords
  rw [List.any_eq_true]
  constructor
  · rintro ⟨k, hk, hm⟩
    rw [keywordMatches_eq_or] at hm
    exact ⟨k, hk, by simpa using hm⟩
  · rintro ⟨k, hk, hm⟩
    exact ⟨k, hk, by rw [keywordMatches_eq_or]; simpa using hm⟩

/-- Membership in the unmatched-papers list. -/
lemma mem_unmatchedPapers (rules : List (List Char × List (List Char)))
    (papers : List Paper) (p : Paper) :
    p ∈ unmatchedPapers rules papers
      ↔ p ∈ papers ∧ ∀ gk ∈ rules, matchesKeywords p gk.2 = false := by
  simp [unmatchedPapers, List.mem_filter, List.any_eq_false]

/-- The named-group entries carry exactly the rule-set group names. -/
lemma namedGroups_keys (rules : List (List Char × List (List Char)))
    (papers : List Paper) :
    (namedGroups rules papers).map Prod.fst = rules.map Prod.fst := by
  simp [namedGroups, List.map_map]

/-- When no rule group is named `"uncategorized"`, `filter_papers` is the
named groups followed (iff some paper is unmatched) by the synthetic entry. -/
lemma filterPapers_eq_append (rules : List (List Char × List (List Char)))
    (papers : List Paper) (hU : uncategorizedKey ∉ rules.map Prod.fst) :
    filterPapers rules papers
      = namedGroups rules papers
        ++ (if (unmatchedPapers rules papers).isEmpty then []
            else [(uncategorizedKey, unmatchedPapers rules papers)]) := by
  unfold filterPapers
  by_cases he : (unmatchedPapers rules papers).isEmpty
  · simp [he]
  · have hany : ((namedGroups rules papers).any fun kv => kv.1 == uncategorizedKey) = false := by
      rw [List.any_eq_false]
      intro kv hkv
      have hk : kv.1 ∈ rules.map Prod.fst := by
        rw [← namedGroups_keys rules papers]
        exact List.mem_map_of_mem _ hkv
      simp only [beq_iff_eq]
      intro he'
      exact hU (he' ▸ hk)
    simp [he, dictSet, hany]

/-- Claim C4 counterexample: with the rule set whose single group is literally
named `"uncategorized"` and one unmatched paper present, the dict assignment
`grouped_papers["uncategorized"] = unmatched_papers` overwrites the rule
group's matches — `paperX` (which matches the group's keyword) appears in no
output group, so the output does not cover the input. -/
theorem filterPapers_uncategorized_rule_breaks_coverage :
    paperX ∈ [paperX, paperY]
    ∧ filterPapers cxRules [paperX, paperY] = [(uncategorizedKey, [paperY])]
    ∧ ¬∃ gl ∈ filterPapers cxRules [paperX, paperY], paperX ∈ gl.2 := by decide

/-- Claim C4 as amended (assuming no rule group is named `"uncategorized"`):
the output covers the input (every record is in some group), every group
member comes from the input, each named rule group is present and holds
exactly the records matching its keywords, a record is in `"uncategorized"`
iff it matches no rule group, and the `"uncategorized"` key is present iff
some record matches no rule group. -/
theorem filterPapers_spec (rules : List (List Char × List (List Char)))
    (papers : List Paper) (hU : uncategorizedKey ∉ rules.map Prod.fst) :
    (∀ p ∈ papers, ∃ gl ∈ filterPapers rules papers, p ∈ gl.2)
    ∧ (∀ gl ∈ filterPapers rules papers, ∀ p ∈ gl.2, p ∈ papers)
    ∧ (∀ gk ∈ rules, ∃ l, (gk.1, l) ∈ filterPapers rules papers
        ∧ ∀ p, p ∈ l ↔ p ∈ papers ∧ matchesKeywords p gk.2 = true)
    ∧ (∀ p ∈ papers,
        (∃ l, (uncategorizedKey, l) ∈ filterPapers rules papers ∧ p ∈ l)
          ↔ ∀ gk ∈ rules, matchesKeywords p gk.2 = false)
    ∧ (uncategorizedKey ∈ (filterPapers rules papers).map Prod.fst
        ↔ ∃ p ∈ papers, ∀ gk ∈ rules, matchesKeywords p gk.2 = false) := by
  have heq := filterPapers_eq_append rules papers hU
  have hUng : ∀ l, (uncategorizedKey, l) ∉ namedGroups rules papers := by
    intro l hl
    exact hU (by
      rw [← namedGroups_keys rules papers]
      exact List.mem_map_of_mem Prod.fst hl)
  refine ⟨?_, ?_, ?_, ?_, ?_⟩
  · intro p hp
    by_cases hm : ∃ gk ∈ rules, matchesKeywords p gk.2 = true
    · obtain ⟨gk, hgk, hmk⟩ := hm
      refine ⟨(gk.1, papers.filter fun q => matchesKeywords q gk.2), ?_, ?_⟩
      · rw [heq]
        exact List.mem_append_left _ (List.mem_map_of_mem _ hgk)
      · rw [List.mem_filter]
        exact ⟨hp, hmk⟩
    · have hall : ∀ gk ∈ rules, matchesKeywords p gk.2 = false := by
        intro gk hgk
        cases hmk : matchesKeywords p gk.2 with
        | false => rfl
        | true => exact absurd ⟨gk, hgk, hmk⟩ hm
      have hpu : p ∈ unmatchedPapers rules papers :=
        (mem_unmatchedPapers rules papers p).mpr ⟨hp, hall⟩
      have hne : (unmatchedPapers rules papers).isEmpty = false := by
        rw [List.isEmpty_eq_false]
        exact List.ne_nil_of_mem hpu
      refine ⟨(uncategorizedKey, unmatchedPapers rules papers), ?_, hpu⟩
      rw [heq, hne]
      exact List.mem_append_right _ (List.mem_singleton.mpr rfl)
  · intro gl hgl p hpg
    rw [heq] at hgl
    rcases List.mem_append.mp hgl with hng | htl
    · obtain ⟨gk, _, rfl⟩ := List.mem_map.mp hng
      exact (List.mem_filter.mp hpg).1
    · have : gl = (uncategorizedKey, unmatchedPapers rules papers) := by
        by_cases he : (unmatchedPapers rules papers).isEmpty <;> simp [he] at htl
        exact htl
      rw [this] at hpg
      exact ((mem_unmatchedPapers rules papers p).mp hpg).1
  · intro gk hgk
    refine ⟨papers.filter fun q => matchesKeywords q gk.2, ?_, ?_⟩
    · rw [heq]
      exact List.mem_append_left _ (List.mem_map_of_mem _ hgk)
    · intro p
      rw [List.mem_filter]
  · intro p hp
    constructor
    · rintro ⟨l, hl, hpl⟩
      rw [heq] at hl
      rcases List.mem_append.mp hl with hng | htl
      · exact absurd hng (hUng l)
      · have : l = unmatchedPapers rules papers := by
          by_cases he : (unmatchedPapers rules papers).isEmpty <;> simp [he] at htl
          exact htl
        rw [this] at hpl
        exact ((mem_unmatchedPapers rules papers p).mp hpl).2
    · intro hall
      have hpu : p ∈ unmatchedPapers rules papers :=
        (mem_unmatchedPapers rules papers p).mpr ⟨hp, hall⟩
      have hne : (unmatchedPapers rules papers).isEmpty = false := by
        rw [List.isEmpty_eq_false]
        exact List.ne_nil_of_mem hpu
      refine ⟨unmatchedPapers rules papers, ?_, hpu⟩
      rw [heq, hne]
      exact List.mem_append_right _ (List.mem_singleton.mpr rfl)
  · constructor
    · intro hk
      rw [heq, List.map_append] at hk
      rcases List.mem_append.mp hk with hng | htl
      · rw [namedGroups_keys rules papers] at hng
        exact absurd hng hU
      · have hne : (unmatchedPapers rules papers).isEmpty = false := by
          by_cases he : (unmatchedPapers rules papers).isEmpty
          · rw [he] at htl
            simp at htl
          · simpa using he
        rw [hne] at htl
        obtain ⟨p, hpu⟩ := List.exists_mem_of_ne_nil _ (List.isEmpty_eq_false.mp hne)
        obtain ⟨hp, hall⟩ := (mem_unmatchedPapers rules papers p).mp hpu
        exact ⟨p, hp, hall⟩
    · rintro ⟨p, hp, hall⟩
      have hpu : p ∈ unmatchedPapers rules papers :=
        (mem_unmatchedPapers rules papers p).mpr ⟨hp, hall⟩
      have hne : (unmatchedPapers rules papers).isEmpty = false := by
        rw [List.isEmpty_eq_false]
        exact List.ne_nil_of_mem hpu
      rw [heq, List.map_append, hne]
      exact List.mem_append_right _ (by simp)

/-- Witness for `filterPapers_spec`: the spec's classification example — rule
set `ai`/`physics`, three records, one matching each group and one matching
neither. -/
theorem filterPapers_spec_witness :
    uncategorizedKey ∉ exRules.map Prod.fst
    ∧ ((∀ p ∈ exPapers, ∃ gl ∈ filterPapers exRules exPapers, p ∈ gl.2)
      ∧ (∀ gl ∈ filterPapers exRules exPapers, ∀ p ∈ gl.2, p ∈ exPapers)
      ∧ (∀ gk ∈ exRules, ∃ l, (gk.1, l) ∈ filterPapers exRules exPapers
          ∧ ∀ p, p ∈ l ↔ p ∈ exPapers ∧ matchesKeywords p gk.2 = true)
      ∧ (∀ p ∈ exPapers,
          (∃ l, (uncategorizedKey, l) ∈ filterPapers exRules exPapers ∧ p ∈ l)
            ↔ ∀ gk ∈ exRules, matchesKeywords p gk.2 = false)
      ∧ (uncategorizedKey ∈ (filterPapers exRules exPapers).map Prod.fst
          ↔ ∃ p ∈ exPapers, ∀ gk ∈ exRules, matchesKeywords p gk.2 = false)) :=
  ⟨by decide, filterPapers_spec exRules exPapers (by decide)⟩

/-- Insertion into the score-sorted list adds exactly one element. -/
lemma mem_insertScoreDesc (p q : Paper) (l : List Paper) :
    q ∈ insertScoreDesc p l ↔ q = p ∨ q ∈ l := by
  induction l with
  | nil => simp [insertScoreDesc]
  | cons r rest ih =>
    by_cases h : scoreKey r ≤ scoreKey p
    · simp [insertScoreDesc, h]
    · simp only [insertScoreDesc, if_neg h, List.mem_cons, ih]
      tauto

/-- The stable sort permutes its input: same members. -/
lemma mem_sortByScoreDesc (l : List Paper) (p : Paper) :
    p ∈ sortByScoreDesc l ↔ p ∈ l := by
  induction l with
  | nil => simp [sortByScoreDesc]
  | cons q rest ih =>
    simp [sortByScoreDesc, mem_insertScoreDesc, ih]

/-- The relevance score reads only `title` and `summary`, so updating
`relevance_score` does not change it. -/
lemma calculateRelevance_update (rules : List (List Char × List (List Char)))
    (p : Paper) (v : Option ℚ) :
    calculateRelevance rules { p with relevance_score := v } = calculateRelevance rules p := rfl

/-- Claim C10: a record whose relevance score is below the threshold is left
completely unmodified by `filter_by_relevance` (its final state equals its
initial state — in particular no `relevance_score` is attached) and is
excluded from the returned list; the returned papers are only
threshold-meeting records with their score attached. -/
theorem filterByRelevance_below_threshold_untouched
    (rules : List (List Char × List (List Char))) (papers : List Paper)
    (minRelevance : ℚ) (p : Paper) (hp : p ∈ papers)
    (hs : calculateRelevance rules p < minRelevance) :
    relevancePost rules minRelevance p = p
    ∧ p ∉ filterByRelevance rules papers minRelevance := by
  have hnot : ¬minRelevance ≤ calculateRelevance rules p := not_le.mpr hs
  constructor
  · simp [relevancePost, hnot]
  · intro hmem
    simp only [filterByRelevance] at hmem
    rw [mem_sortByScoreDesc, List.mem_filterMap] at hmem
    obtain ⟨q, _, hfq⟩ := hmem
    by_cases hql : minRelevance ≤ calculateRelevance rules q
    · rw [if_pos hql] at hfq
      have hqp := Option.some.inj hfq
      have hcalc : calculateRelevance rules p = calculateRelevance rules q := by
        rw [← hqp, calculateRelevance_update]
      rw [hcalc] at hnot
      exact hnot hql
    · rw [if_neg hql] at hfq
      exact Option.noConfusion hfq

/-- Witness for `filterByRelevance_below_threshold_untouched`: `paperY`
scores 0 against the `"x"` rule, below the default threshold 0.3, and is
neither mutated nor returned. -/
theorem filterByRelevance_below_threshold_untouched_witness :
    (paperY ∈ [paperX, paperY]
      ∧ calculateRelevance [("g".data, ["x".data])] paperY < mkRat 3 10)
    ∧ (relevancePost [("g".data, ["x".data])] (mkRat 3 10) paperY = paperY
      ∧ paperY ∉ filterByRelevance [("g".data, ["x".data])] [paperX, paperY] (mkRat 3 10)) :=
  ⟨⟨by decide, by decide⟩,
    filterByRelevance_below_threshold_untouched [("g".data, ["x".data])]
      [paperX, paperY] (mkRat 3 10) paperY (by decide) (by decide)⟩

end ArxivCollector
